import Mathlib

/-!
Verification of the pixel-art puzzle game core.

Part 1 embeds the Overlay Engine (`src/unnamed/part_001`): `canOverlay`,
`overlayGrids`, `gridsEqual`, `validateSolution` and the bundled
`easyPuzzle` data.  A grid is an exactly-3×3 matrix of a 4-symbol
alphabet, modelled as a function `Fin 3 → Fin 3 → Color`; the source's
`for i in 0..2 / for j in 0..2` loops with early `return false` become
`List.all` over the row-major list of the nine cell positions.

Part 2 embeds the Puzzle Selection Policy (`src/unnamed/part_003`):
`addPuzzleToRecentQueue` (the pure list transformation between the ledger
read and write), `handleGuestPuzzlePlayed` (the guest in-memory ledger
update), and `getUnplayedPuzzleByDifficulty`.  JavaScript values that may
be strings or numbers (`String(id)` normalisation) are modelled by
`JsVal`; the external store reads and `Math.random` draws are explicit
parameters.

Part 3 re-embeds the Overlay Engine at the level of raw JavaScript array
indexing (`List (List Color)` with `Option`-valued cell access) to state
and prove totality: on well-formed 3×3 inputs no out-of-bounds access
occurs.
-/

/-- The cell alphabet: `'R' | 'B' | 'Y' | 'X'` (red, blue, yellow, empty). -/
inductive Color : Type
  | R | B | Y | X
deriving DecidableEq, Repr

/-- A grid: an exactly-3×3 matrix of `Color` (`Grid = Color[][]`, used by the
engine only at indices 0..2). -/
def Grid : Type := Fin 3 → Fin 3 → Color

instance : DecidableEq Grid := by unfold Grid; infer_instance

/-- Builds a concrete 3×3 grid from its nine cells in row-major order. -/
def mkGrid (a b c d e f g h i : Color) : Grid := fun r s =>
  match r, s with
  | 0, 0 => a | 0, 1 => b | 0, 2 => c
  | 1, 0 => d | 1, 1 => e | 1, 2 => f
  | 2, 0 => g | 2, 1 => h | 2, 2 => i

/-- The nine cell positions in the row-major order the source's nested
`for i / for j` loops visit them. -/
def cellIdx : List (Fin 3 × Fin 3) :=
  [(0,0),(0,1),(0,2),(1,0),(1,1),(1,2),(2,0),(2,1),(2,2)]

/-- `canOverlay(grid1, grid2)`: loops over all nine cells and returns `false`
at the first cell where both grids are non-`X`; `true` otherwise.  The early
`return false` is expressed by `List.all`. -/
def canOverlay (grid1 grid2 : Grid) : Bool :=
  cellIdx.all fun p =>
    !(grid1 p.1 p.2 != Color.X && grid2 p.1 p.2 != Color.X)

/-- The all-`X` accumulator `overlayGrids` starts from. -/
def emptyGrid : Grid := fun _ _ => Color.X

/-- One pass of `overlayGrids`' outer loop: for each cell, if `grid`'s cell is
non-`X` it overwrites the accumulator's cell. -/
def overlayOne (acc grid : Grid) : Grid := fun i j =>
  if grid i j != Color.X then grid i j else acc i j

/-- `overlayGrids(grids)`: starts from the fully empty grid and folds each
input grid over it, non-`X` cells overwriting. -/
def overlayGrids (grids : List Grid) : Grid :=
  grids.foldl overlayOne emptyGrid

/-- `gridsEqual(grid1, grid2)`: loops over the nine cells, `false` at the
first differing cell, `true` otherwise. -/
def gridsEqual (grid1 grid2 : Grid) : Bool :=
  cellIdx.all fun p => grid1 p.1 p.2 == grid2 p.1 p.2

/-- The source's double loop `for i; for j in i+1..` checking
`canOverlay(selectedGrids[i], selectedGrids[j])` for every pair `i < j`,
with early `return false`. -/
def allPairsOverlay : List Grid → Bool
  | [] => true
  | g :: rest => (rest.all fun h => canOverlay g h) && allPairsOverlay rest

/-- `validateSolution(selectedGrids, target)`: `false` unless exactly 3 grids;
`false` if some pair conflicts; otherwise compares the overlay with the
target. -/
def validateSolution (selectedGrids : List Grid) (target : Grid) : Bool :=
  if selectedGrids.length != 3 then
    false
  else if !(allPairsOverlay selectedGrids) then
    false
  else
    gridsEqual (overlayGrids selectedGrids) target

/-- The bundled sample easy puzzle's target `[[R,B,X],[R,B,Y],[X,X,Y]]`. -/
def easyTarget : Grid :=
  mkGrid .R .B .X  .R .B .Y  .X .X .Y

/-- The sample puzzle's nine available grids, in source order
(indices 0,1,2 are the solution, 3..8 are decoys). -/
def easyAvailableGrids : List Grid :=
  [ mkGrid .R .X .X  .R .X .X  .X .X .X
  , mkGrid .X .B .X  .X .B .X  .X .X .X
  , mkGrid .X .X .X  .X .X .Y  .X .X .Y
  , mkGrid .R .R .X  .X .X .X  .X .X .X
  , mkGrid .X .X .X  .B .B .X  .X .X .X
  , mkGrid .X .X .Y  .X .X .Y  .X .X .X
  , mkGrid .R .X .X  .X .B .X  .X .X .Y
  , mkGrid .X .X .X  .X .X .X  .R .B .Y
  , mkGrid .X .B .Y  .X .X .X  .X .X .X ]

/-- The sample puzzle's authored solution indices `[0, 1, 2]`. -/
def easySolution : List Nat := [0, 1, 2]

/-- Every cell position occurs in the loop's index list. -/
lemma mem_cellIdx : ∀ p : Fin 3 × Fin 3, p ∈ cellIdx := by decide

/-- `canOverlay` is `true` exactly when no cell holds two non-empty colors. -/
lemma canOverlay_iff (a b : Grid) :
    canOverlay a b = true ↔ ∀ i j, ¬(a i j ≠ Color.X ∧ b i j ≠ Color.X) := by
  unfold canOverlay
  rw [List.all_eq_true]
  constructor
  · intro h i j
    have := h (i, j) (mem_cellIdx _)
    simp at this
    tauto
  · intro h p _
    have := h p.1 p.2
    simp
    tauto

/-- `gridsEqual` is `true` exactly when every cell agrees. -/
lemma gridsEqual_iff (a b : Grid) :
    gridsEqual a b = true ↔ ∀ i j, a i j = b i j := by
  unfold gridsEqual
  rw [List.all_eq_true]
  constructor
  · intro h i j
    have := h (i, j) (mem_cellIdx _)
    simpa using this
  · intro h p _
    have := h p.1 p.2
    simpa using this

/-- The source's pair double-loop succeeds exactly when the list is pairwise
overlay-compatible. -/
lemma allPairsOverlay_iff (l : List Grid) :
    allPairsOverlay l = true ↔ l.Pairwise (fun a b => canOverlay a b = true) := by
  induction l with
  | nil => simp [allPairsOverlay]
  | cons g rest ih =>
    simp [allPairsOverlay, List.all_eq_true, List.pairwise_cons, ih, and_comm]

/-- C1: `validateSolution` returns `false` when the selection does not have
length 3; `false` when some pair of selected grids fails `canOverlay`; and
for a 3-element pairwise-compatible selection it returns `true` iff
`overlayGrids` of the selection equals the target cell-for-cell. -/
theorem validateSolution_spec (selected : List Grid) (target : Grid) :
    (selected.length ≠ 3 → validateSolution selected target = false) ∧
    (¬ selected.Pairwise (fun a b => canOverlay a b = true) →
      validateSolution selected target = false) ∧
    (selected.length = 3 →
      selected.Pairwise (fun a b => canOverlay a b = true) →
      (validateSolution selected target = true ↔
        ∀ i j, overlayGrids selected i j = target i j)) := by
  refine ⟨?_, ?_, ?_⟩
  · intro h
    unfold validateSolution
    simp [h]
  · intro h
    unfold validateSolution
    rw [← allPairsOverlay_iff] at h
    simp [h]
  · intro hlen hpair
    unfold validateSolution
    rw [← allPairsOverlay_iff] at hpair
    simp [hlen, hpair, gridsEqual_iff]

/-- C1 witness: a 2-element selection fails, and the sample solution, which
has length 3 and is pairwise compatible, validates iff its overlay matches
the target (checked concretely). -/
theorem validateSolution_spec_witness :
    validateSolution
      [easyAvailableGrids.getD 0 emptyGrid, easyAvailableGrids.getD 1 emptyGrid]
      easyTarget = false ∧
    validateSolution
      [easyAvailableGrids.getD 0 emptyGrid, easyAvailableGrids.getD 1 emptyGrid,
       easyAvailableGrids.getD 2 emptyGrid] easyTarget = true := by
  constructor
  · exact (validateSolution_spec _ easyTarget).1 (by decide)
  · exact ((validateSolution_spec _ easyTarget).2.2 (by decide)
      (by decide)).mpr (by decide)

/-- C2: `canOverlay(a, b)` is `true` iff no cell position has a non-empty
color in both grids (so two empty cells never conflict, and one empty plus
one colored cell never conflicts). -/
theorem canOverlay_no_conflict_iff (a b : Grid) :
    canOverlay a b = true ↔ ∀ i j, ¬(a i j ≠ Color.X ∧ b i j ≠ Color.X) :=
  canOverlay_iff a b

/-- C8: on the bundled sample easy puzzle, the authored solution `[0, 1, 2]`
validates against the target; substituting decoy grid 3 for grid 0 fails;
and grids 0 and 6 cannot overlay because both color cell `(0, 0)`. -/
theorem easyPuzzle_concrete_scenario :
    validateSolution
      (easySolution.map fun i => easyAvailableGrids.getD i emptyGrid)
      easyTarget = true ∧
    validateSolution
      [easyAvailableGrids.getD 3 emptyGrid, easyAvailableGrids.getD 1 emptyGrid,
       easyAvailableGrids.getD 2 emptyGrid] easyTarget = false ∧
    (canOverlay (easyAvailableGrids.getD 0 emptyGrid)
        (easyAvailableGrids.getD 6 emptyGrid) = false ∧
      easyAvailableGrids.getD 0 emptyGrid 0 0 ≠ Color.X ∧
      easyAvailableGrids.getD 6 emptyGrid 0 0 ≠ Color.X) := by
  refine ⟨by decide, by decide, by decide, by decide⟩

/-- The per-cell effect of one `overlayGrids` step: a non-`X` incoming value
overwrites the accumulator. -/
def cellStep (acc v : Color) : Color := if v != Color.X then v else acc

/-- `overlayGrids` computed cell-wise: each cell of the result is the fold of
`cellStep` over that cell's column of input values. -/
lemma overlayGrids_apply (gs : List Grid) (i j : Fin 3) :
    overlayGrids gs i j = (gs.map fun g => g i j).foldl cellStep Color.X := by
  have key : ∀ acc : Grid, (gs.foldl overlayOne acc) i j
      = (gs.map fun g => g i j).foldl cellStep (acc i j) := by
    induction gs with
    | nil => intro acc; rfl
    | cons g rest ih =>
      intro acc
      simp only [List.foldl_cons, List.map_cons]
      rw [ih]
      rfl
  exact key emptyGrid

/-- Folding `cellStep` over a list of empty cells leaves the accumulator. -/
lemma foldl_cellStep_all_empty (l : List Color) (h : ∀ v ∈ l, v = Color.X)
    (acc : Color) : l.foldl cellStep acc = acc := by
  induction l generalizing acc with
  | nil => rfl
  | cons v rest ih =>
    have hv : v = Color.X := h v (List.mem_cons_self _ _)
    have : cellStep acc v = acc := by simp [cellStep, hv]
    rw [List.foldl_cons, this]
    exact ih (fun w hw => h w (List.mem_cons_of_mem _ hw)) acc

/-- With at most one non-empty value in the list, the `cellStep` fold equals
that unique value (or `X` when there is none). -/
lemma foldl_cellStep_eq_filter (l : List Color)
    (h : (l.countP fun v => v != Color.X) ≤ 1) :
    l.foldl cellStep Color.X = (l.filter fun v => v != Color.X).headD Color.X := by
  induction l with
  | nil => rfl
  | cons v rest ih =>
    by_cases hv : v = Color.X
    · have hstep : cellStep Color.X v = Color.X := by simp [cellStep, hv]
      have hfil : ((v :: rest).filter fun v => v != Color.X)
          = rest.filter fun v => v != Color.X := by
        simp [List.filter_cons, hv]
      rw [List.foldl_cons, hstep, hfil]
      have h' : (rest.countP fun v => v != Color.X) ≤ 1 := by
        rw [List.countP_cons] at h
        simp only [hv, bne_self_eq_false] at h
        omega
      exact ih h'
    · have hcount : (rest.countP fun v => v != Color.X) = 0 := by
        rw [List.countP_cons] at h
        have : (if (v != Color.X) = true then 1 else 0) = 1 := by simp [hv]
        omega
      have hall : ∀ w ∈ rest, w = Color.X := by
        intro w hw
        have := List.countP_eq_zero.mp hcount w hw
        simpa using this
      have hstep : cellStep Color.X v = v := by simp [cellStep, hv]
      rw [List.foldl_cons, hstep, foldl_cellStep_all_empty rest hall]
      rw [List.filter_cons]
      have hfil : (rest.filter fun v => v != Color.X) = [] :=
        List.filter_eq_nil_iff.mpr (by intro w hw; simp [hall w hw])
      simp [hv, hfil]

/-- Pairwise "at least one of the two is empty" forces at most one non-empty
value in the whole list. -/
lemma countP_le_one_of_pairwise (l : List Color)
    (h : l.Pairwise fun a b => a = Color.X ∨ b = Color.X) :
    (l.countP fun v => v != Color.X) ≤ 1 := by
  induction l with
  | nil => simp
  | cons a rest ih =>
    rw [List.pairwise_cons] at h
    rw [List.countP_cons]
    by_cases ha : a = Color.X
    · have := ih h.2
      simp [ha]
      omega
    · have hall : ∀ w ∈ rest, w = Color.X :=
        fun w hw => ((h.1 w hw).resolve_left ha)
      have hcount : (rest.countP fun v => v != Color.X) = 0 :=
        List.countP_eq_zero.mpr (by intro w hw; simp [hall w hw])
      simp [hcount, ha]

/-- The `cellStep` fold is permutation-invariant whenever at most one value
is non-empty. -/
lemma foldl_cellStep_perm (l₁ l₂ : List Color) (hp : l₁.Perm l₂)
    (h : (l₁.countP fun v => v != Color.X) ≤ 1) :
    l₁.foldl cellStep Color.X = l₂.foldl cellStep Color.X := by
  have h₂ : (l₂.countP fun v => v != Color.X) ≤ 1 := by
    rw [← hp.countP_eq]; exact h
  rw [foldl_cellStep_eq_filter l₁ h, foldl_cellStep_eq_filter l₂ h₂]
  have hfp : (l₁.filter fun v => v != Color.X).Perm
      (l₂.filter fun v => v != Color.X) := hp.filter _
  have hlen : (l₁.filter fun v => v != Color.X).length ≤ 1 := by
    rw [← List.countP_eq_length_filter]; exact h
  match hf : l₁.filter fun v => v != Color.X with
  | [] =>
    rw [hf] at hfp
    rw [List.nil_perm.mp hfp]
  | [a] =>
    rw [hf] at hfp
    rw [(List.singleton_perm.mp hfp).symm]
  | a :: b :: rest =>
    rw [hf] at hlen
    simp at hlen

/-- C3: for a pairwise overlay-compatible list of grids, `overlayGrids` gives
cell-for-cell equal results on any permutation of the list. -/
theorem overlayGrids_perm_invariant (l₁ l₂ : List Grid) (hp : l₁.Perm l₂)
    (hc : l₁.Pairwise fun a b => canOverlay a b = true) :
    gridsEqual (overlayGrids l₁) (overlayGrids l₂) = true := by
  rw [gridsEqual_iff]
  intro i j
  rw [overlayGrids_apply, overlayGrids_apply]
  apply foldl_cellStep_perm
  · exact hp.map _
  · apply countP_le_one_of_pairwise
    rw [List.pairwise_map]
    refine hc.imp ?_
    intro a b hab
    have := (canOverlay_iff a b).mp hab i j
    tauto

/-- C3 witness: swapping the first two sample solution grids leaves the
overlay unchanged. -/
theorem overlayGrids_perm_invariant_witness :
    gridsEqual
      (overlayGrids [easyAvailableGrids.getD 0 emptyGrid,
        easyAvailableGrids.getD 1 emptyGrid, easyAvailableGrids.getD 2 emptyGrid])
      (overlayGrids [easyAvailableGrids.getD 1 emptyGrid,
        easyAvailableGrids.getD 0 emptyGrid, easyAvailableGrids.getD 2 emptyGrid])
      = true :=
  overlayGrids_perm_invariant _ _
    (List.Perm.swap (easyAvailableGrids.getD 1 emptyGrid)
      (easyAvailableGrids.getD 0 emptyGrid) [easyAvailableGrids.getD 2 emptyGrid])
    (by decide)

/-- A JavaScript value used as a puzzle ID: the ledger store may hand back
strings or numbers, which `String(id)` normalises to a string. -/
inductive JsVal : Type
  | str (s : String)
  | num (n : Int)
deriving DecidableEq, Repr

/-- `String(v)` on the two ID shapes. -/
def jsString : JsVal → String
  | .str s => s
  | .num n => toString n

/-- `String.prototype.trim`: strips leading and trailing whitespace. -/
def jsTrim (s : String) : String :=
  ⟨((s.data.dropWhile Char.isWhitespace).reverse.dropWhile
      Char.isWhitespace).reverse⟩

/-- `addPuzzleToRecentQueue`'s pure list transformation between the ledger
read and the ledger write: normalise every stored ID with `String`, remove
any occurrence of the new ID, push the new ID at the end, and keep only the
last 100 entries (`slice(-100)`) when the queue exceeds 100. -/
def addPuzzleToRecentQueue (recentRaw : List JsVal) (puzzleId : JsVal) :
    List String :=
  let recentPuzzles := recentRaw.map jsString
  let puzzleIdStr := jsString puzzleId
  let filtered := recentPuzzles.filter fun id => id != puzzleIdStr
  let pushed := filtered ++ [puzzleIdStr]
  if pushed.length > 100 then pushed.drop (pushed.length - 100) else pushed

/-- The guest in-memory ledger update `handleGuestPuzzlePlayed`: trim the
stringified ID; if it is already present return the previous list unchanged;
otherwise append it and keep only the last 100 entries. -/
def handleGuestPuzzlePlayed (prev : List String) (puzzleId : JsVal) :
    List String :=
  let cleanPuzzleId := jsTrim (jsString puzzleId)
  if prev.contains cleanPuzzleId then prev
  else
    let updated := prev ++ [cleanPuzzleId]
    if updated.length > 100 then updated.drop (updated.length - 100) else updated

/-- `difficulty_type ∈ {easy, medium, hard}`. -/
inductive Difficulty : Type
  | easy | medium | hard
deriving DecidableEq, Repr

/-- A row of the `puzzles` table, restricted to the fields the selection
policy reads (`id`, `difficulty_type`). -/
structure Puzzle : Type where
  id : JsVal
  difficulty_type : Difficulty
deriving DecidableEq, Repr

/-- The store query `getPuzzlesByDifficulty`: the rows of the `puzzles` table
whose `difficulty_type` equals the requested difficulty, the table being
modelled as an explicit list of rows. -/
def getPuzzlesByDifficulty (store : List Puzzle) (difficulty : Difficulty) :
    List Puzzle :=
  store.filter fun p => p.difficulty_type == difficulty

/-- Outcome of the authenticated ledger read
(`supabase.from('users').select('recent_puzzle_ids')...single()`): an error,
or a row whose `recent_puzzle_ids` is an array of IDs (`none` models a null
or non-array field, which the code replaces by `[]`). -/
inductive LedgerRead : Type
  | failure
  | success (recentIds : Option (List JsVal))
deriving DecidableEq, Repr

/-- `Math.floor(Math.random() * n)` draws an index in `0..n-1`; the draw is
modelled by an arbitrary natural `rand` reduced mod `n`, which ranges over
exactly those indices. -/
def randomIndex (rand n : Nat) : Nat := rand % n

/-- `getUnplayedPuzzleByDifficulty(userId, difficulty, guestPlayedPuzzles)`:
null when the store has no puzzles of the difficulty; for a guest, filter by
the trimmed in-memory ledger and pick a random survivor (null when none);
for an authenticated player, on ledger-read failure pick a random puzzle
from the full list, otherwise filter by the stringified persisted ledger and
pick a random survivor (null when none). -/
def getUnplayedPuzzleByDifficulty (store : List Puzzle)
    (userId : Option String) (difficulty : Difficulty)
    (guestPlayedPuzzles : Option (List JsVal))
    (ledgerRead : LedgerRead) (rand : Nat) : Option Puzzle :=
  let allPuzzles := getPuzzlesByDifficulty store difficulty
  if allPuzzles.length = 0 then none
  else
    match userId with
    | none =>
      let guestRecentIds :=
        (guestPlayedPuzzles.getD []).map fun id => jsTrim (jsString id)
      let unplayedPuzzles := allPuzzles.filter fun puzzle =>
        !(guestRecentIds.contains (jsTrim (jsString puzzle.id)))
      if unplayedPuzzles.length = 0 then none
      else unplayedPuzzles.get? (randomIndex rand unplayedPuzzles.length)
    | some _ =>
      match ledgerRead with
      | .failure => allPuzzles.get? (randomIndex rand allPuzzles.length)
      | .success recentIdsRaw =>
        let recentPuzzleIds := (recentIdsRaw.getD []).map jsString
        let unplayedPuzzles := allPuzzles.filter fun puzzle =>
          !(recentPuzzleIds.contains (jsString puzzle.id))
        if unplayedPuzzles.length = 0 then none
        else unplayedPuzzles.get? (randomIndex rand unplayedPuzzles.length)

/-- Whatever the cap decides, the written queue is a suffix of the
de-duplicated queue with the new ID appended. -/
lemma addPuzzleToRecentQueue_shape (recent : List JsVal) (pid : JsVal) :
    ∃ k, k ≤ ((recent.map jsString).filter fun id => id != jsString pid).length ∧
      addPuzzleToRecentQueue recent pid
        = (((recent.map jsString).filter fun id => id != jsString pid).drop k)
          ++ [jsString pid] := by
  simp only [addPuzzleToRecentQueue]
  split
  · next h =>
    refine ⟨_, ?_, List.drop_append_of_le_length ?_⟩ <;>
      · rw [List.length_append] at h ⊢
        simp only [List.length_singleton] at h ⊢
        omega
  · exact ⟨0, Nat.zero_le _, by simp⟩

/-- The written queue never exceeds 100 entries. -/
lemma addPuzzleToRecentQueue_length_le (recent : List JsVal) (pid : JsVal) :
    (addPuzzleToRecentQueue recent pid).length ≤ 100 := by
  simp only [addPuzzleToRecentQueue]
  split
  · next h => rw [List.length_drop]; omega
  · next h => omega

/-- C10: for every prior ledger content (duplicates and non-string IDs
included) and every puzzle ID, `addPuzzleToRecentQueue` writes a queue whose
last element is `String(puzzleId)`, which contains that ID exactly once, has
at most 100 entries, and whose other entries keep their relative order from
the stringified prior ledger. -/
theorem addPuzzleToRecentQueue_queue_spec (recent : List JsVal) (pid : JsVal) :
    (addPuzzleToRecentQueue recent pid).getLast? = some (jsString pid) ∧
    (addPuzzleToRecentQueue recent pid).count (jsString pid) = 1 ∧
    (addPuzzleToRecentQueue recent pid).length ≤ 100 ∧
    (addPuzzleToRecentQueue recent pid).dropLast.Sublist (recent.map jsString) := by
  obtain ⟨k, hk, hshape⟩ := addPuzzleToRecentQueue_shape recent pid
  refine ⟨?_, ?_, addPuzzleToRecentQueue_length_le recent pid, ?_⟩
  · rw [hshape]
    exact List.getLast?_concat _
  · rw [hshape, List.count_append]
    have hzero : ((((recent.map jsString).filter
        fun id => id != jsString pid).drop k).count (jsString pid)) = 0 := by
      rw [List.count_eq_zero]
      intro hmem
      have hmem' := (List.drop_sublist k _).subset hmem
      have := (List.mem_filter.mp hmem').2
      simp at this
    rw [hzero]
    simp
  · rw [hshape, List.dropLast_concat]
    exact (List.drop_sublist _ _).trans (List.filter_sublist _)

/-- Removing every occurrence of one value shortens a list by its count. -/
lemma length_filter_bne (l : List String) (p : String) :
    (l.filter fun id => id != p).length = l.length - l.count p := by
  induction l with
  | nil => rfl
  | cons a l ih =>
    have hcl : l.count p ≤ l.length := List.count_le_length p l
    by_cases ha : a = p <;>
      · simp [List.filter_cons, List.count_cons, ha, ih]
        try omega

/-- C5 counterexample: on the guest path, re-adding the already-present ID
`"a"` to the ledger `["a", "b"]` returns the ledger unchanged, so the ID is
not moved to the tail (the tail stays `"b"`). -/
theorem guest_readd_not_moved_to_tail :
    handleGuestPuzzlePlayed ["a", "b"] (JsVal.str "a") = ["a", "b"] ∧
    (handleGuestPuzzlePlayed ["a", "b"] (JsVal.str "a")).getLast? ≠
      some (jsString (JsVal.str "a")) := by decide

/-- C5 amended: re-adding a present ID moves it to the tail with unchanged
length on the authenticated path, but leaves the ledger entirely unchanged
on the guest path; adding a 101st distinct ID drops the oldest entry,
leaving length 100, on both paths. -/
theorem ledger_add_amended
    (recent : List JsVal) (pid : JsVal) (prev : List String) (gpid : JsVal) :
    ((recent.map jsString).count (jsString pid) = 1 → recent.length ≤ 100 →
      (addPuzzleToRecentQueue recent pid).length = recent.length ∧
      (addPuzzleToRecentQueue recent pid).getLast? = some (jsString pid)) ∧
    (jsTrim (jsString gpid) ∈ prev → handleGuestPuzzlePlayed prev gpid = prev) ∧
    (recent.length = 100 → jsString pid ∉ recent.map jsString →
      (addPuzzleToRecentQueue recent pid).length = 100 ∧
      addPuzzleToRecentQueue recent pid
        = (recent.map jsString).drop 1 ++ [jsString pid]) ∧
    (prev.length = 100 → jsTrim (jsString gpid) ∉ prev →
      handleGuestPuzzlePlayed prev gpid
        = prev.drop 1 ++ [jsTrim (jsString gpid)]) := by
  refine ⟨?_, ?_, ?_, ?_⟩
  · intro hcount hlen
    have hfl : ((recent.map jsString).filter fun id => id != jsString pid).length
        = recent.length - 1 := by
      rw [length_filter_bne, List.length_map, hcount]
    have h1 : 1 ≤ recent.length := by
      have := List.count_le_length (jsString pid) (recent.map jsString)
      rw [hcount, List.length_map] at this
      exact this
    simp only [addPuzzleToRecentQueue]
    split
    · next h =>
      exfalso
      rw [List.length_append, hfl, List.length_singleton] at h
      omega
    · next h =>
      refine ⟨?_, List.getLast?_concat _⟩
      rw [List.length_append, hfl, List.length_singleton]
      omega
  · intro hmem
    have hcont : prev.contains (jsTrim (jsString gpid)) = true :=
      List.elem_iff.mpr hmem
    simp only [handleGuestPuzzlePlayed, hcont, if_true]
  · intro hlen hnot
    have hfe : ((recent.map jsString).filter fun id => id != jsString pid)
        = recent.map jsString := by
      refine List.filter_eq_self.mpr ?_
      intro x hx
      rw [bne_iff_ne]
      exact fun h => hnot (h ▸ hx)
    have hml : (recent.map jsString).length = 100 := by
      rw [List.length_map, hlen]
    simp only [addPuzzleToRecentQueue, hfe]
    split
    · next h =>
      have hd : (recent.map jsString ++ [jsString pid]).length - 100 = 1 := by
        rw [List.length_append, hml, List.length_singleton]
      rw [hd, List.drop_append_of_le_length (by omega)]
      refine ⟨?_, rfl⟩
      rw [List.length_append, List.length_drop, hml, List.length_singleton]
    · next h =>
      exfalso
      rw [List.length_append, hml, List.length_singleton] at h
      omega
  · intro hlen hnot
    have hcont : prev.contains (jsTrim (jsString gpid)) = false := by
      rw [Bool.eq_false_iff]
      exact fun hc => hnot (List.elem_iff.mp hc)
    simp only [handleGuestPuzzlePlayed, hcont, Bool.false_eq_true, if_false]
    split
    · next h =>
      have hd : (prev ++ [jsTrim (jsString gpid)]).length - 100 = 1 := by
        rw [List.length_append, hlen, List.length_singleton]
      rw [hd, List.drop_append_of_le_length (by omega)]
    · next h =>
      exfalso
      rw [List.length_append, hlen, List.length_singleton] at h
      omega

/-- C5 amended witness: concrete instances of all four amended conjuncts. -/
theorem ledger_add_amended_witness :
    (addPuzzleToRecentQueue [JsVal.str "a", JsVal.str "b"]
      (JsVal.str "a")).length = 2 ∧
    handleGuestPuzzlePlayed ["a", "b"] (JsVal.str "b") = ["a", "b"] ∧
    (addPuzzleToRecentQueue ((List.range 100).map fun n => JsVal.num n)
      (JsVal.num 100)).length = 100 ∧
    handleGuestPuzzlePlayed ((List.range 100).map fun n => toString n)
        (JsVal.num 100)
      = ((List.range 100).map fun n => toString n).drop 1 ++ ["100"] := by
  refine ⟨?_, ?_, ?_, ?_⟩
  · exact ((ledger_add_amended [JsVal.str "a", JsVal.str "b"] (JsVal.str "a")
      [] (JsVal.str "a")).1 (by decide) (by decide)).1
  · exact (ledger_add_amended [] (JsVal.str "a") ["a", "b"]
      (JsVal.str "b")).2.1 (by decide)
  · exact ((ledger_add_amended ((List.range 100).map fun n => JsVal.num n)
      (JsVal.num 100) [] (JsVal.str "a")).2.2.1 (by decide) (by decide)).1
  · exact (ledger_add_amended [] (JsVal.str "a")
      ((List.range 100).map fun n => toString n) (JsVal.num 100)).2.2.2
      (by decide) (by decide)

/-- C4 counterexample: with no easy puzzles in the store the function returns
`none` — exactly the same outcome as the ExhaustedSignal produced when a
guest has already played the only easy puzzle — so the empty-store case is
not a distinct outcome. -/
theorem no_puzzles_vs_exhausted_counterexample :
    getUnplayedPuzzleByDifficulty [] none Difficulty.easy (some [])
        (.success none) 0
      = getUnplayedPuzzleByDifficulty
          [⟨JsVal.str "p1", Difficulty.easy⟩] none Difficulty.easy
          (some [JsVal.str "p1"]) (.success none) 0 ∧
    getUnplayedPuzzleByDifficulty [] none Difficulty.easy (some [])
        (.success none) 0 = none := by decide

/-- C4 amended: when the store holds no puzzles of the requested difficulty
the function returns `null` (`none`) for every caller — the very value also
used as the ExhaustedSignal; no distinct configuration error is surfaced. -/
theorem getUnplayed_no_puzzles_returns_none
    (store : List Puzzle) (userId : Option String) (difficulty : Difficulty)
    (guest : Option (List JsVal)) (lr : LedgerRead) (rand : Nat)
    (h : getPuzzlesByDifficulty store difficulty = []) :
    getUnplayedPuzzleByDifficulty store userId difficulty guest lr rand
      = none := by
  unfold getUnplayedPuzzleByDifficulty
  simp [h]

/-- C4 amended witness: a store holding only a hard puzzle yields `none` for
an easy request. -/
theorem getUnplayed_no_puzzles_returns_none_witness :
    getUnplayedPuzzleByDifficulty [⟨JsVal.str "p9", Difficulty.hard⟩]
      (some "u") Difficulty.easy none LedgerRead.failure 7 = none :=
  getUnplayed_no_puzzles_returns_none _ _ _ _ _ _ (by decide)

/-- C6: when the exclusion set contains (compared as strings) the ID of every
puzzle of the difficulty, the function returns the exhausted signal `none`
and never a puzzle, on both the guest path and the authenticated path. -/
theorem getUnplayed_exhausted
    (store : List Puzzle) (difficulty : Difficulty) (u : String)
    (guestLedger : List JsVal) (recentIds : List JsVal) (r₁ r₂ : Nat)
    (hguest : ∀ p ∈ getPuzzlesByDifficulty store difficulty,
      jsString p.id ∈ guestLedger.map jsString)
    (hauth : ∀ p ∈ getPuzzlesByDifficulty store difficulty,
      jsString p.id ∈ recentIds.map jsString) :
    getUnplayedPuzzleByDifficulty store none difficulty (some guestLedger)
        (.success (some recentIds)) r₁ = none ∧
    getUnplayedPuzzleByDifficulty store (some u) difficulty none
        (.success (some recentIds)) r₂ = none := by
  have hgfil : ((getPuzzlesByDifficulty store difficulty).filter fun puzzle =>
      !((guestLedger.map fun id => jsTrim (jsString id)).contains
        (jsTrim (jsString puzzle.id)))) = [] := by
    refine List.filter_eq_nil_iff.mpr ?_
    intro p hp
    obtain ⟨v, hv, hveq⟩ := List.mem_map.mp (hguest p hp)
    simp
    exact ⟨v, hv, by rw [hveq]⟩
  have hafil : ((getPuzzlesByDifficulty store difficulty).filter fun puzzle =>
      !((recentIds.map jsString).contains (jsString puzzle.id))) = [] := by
    refine List.filter_eq_nil_iff.mpr ?_
    intro p hp
    simp
    exact List.mem_map.mp (hauth p hp)
  constructor
  · simp only [getUnplayedPuzzleByDifficulty, Option.getD_some]
    split
    · rfl
    · rw [hgfil]
      rfl
  · simp only [getUnplayedPuzzleByDifficulty, Option.getD_some]
    split
    · rfl
    · rw [hafil]
      rfl

/-- C6 witness: a guest and an authenticated player whose ledgers contain the
stringified IDs of both easy puzzles get `none`. -/
theorem getUnplayed_exhausted_witness :
    getUnplayedPuzzleByDifficulty
        [⟨JsVal.num 1, Difficulty.easy⟩, ⟨JsVal.str "b", Difficulty.easy⟩]
        none Difficulty.easy (some [JsVal.str "1", JsVal.str "b"])
        (.success (some [JsVal.num 1, JsVal.str "b"])) 5 = none ∧
    getUnplayedPuzzleByDifficulty
        [⟨JsVal.num 1, Difficulty.easy⟩, ⟨JsVal.str "b", Difficulty.easy⟩]
        (some "u") Difficulty.easy none
        (.success (some [JsVal.num 1, JsVal.str "b"])) 6 = none :=
  getUnplayed_exhausted _ _ "u" [JsVal.str "1", JsVal.str "b"]
    [JsVal.num 1, JsVal.str "b"] 5 6 (by decide) (by decide)

/-- C7: for an authenticated player whose persisted-ledger read fails, the
function returns the puzzle at the random draw's index in the full
difficulty list: it never fails, every returned puzzle belongs to the full
set, and every index of the full set is drawn for some draw value — no
exclusion filtering takes place. -/
theorem getUnplayed_ledger_failure_random
    (store : List Puzzle) (difficulty : Difficulty) (u : String)
    (guest : Option (List JsVal)) (rand : Nat)
    (hne : getPuzzlesByDifficulty store difficulty ≠ []) :
    (getUnplayedPuzzleByDifficulty store (some u) difficulty guest
        .failure rand
      = (getPuzzlesByDifficulty store difficulty).get?
          (rand % (getPuzzlesByDifficulty store difficulty).length)) ∧
    (∃ p, getUnplayedPuzzleByDifficulty store (some u) difficulty guest
        .failure rand = some p ∧
        p ∈ getPuzzlesByDifficulty store difficulty) ∧
    (∀ i, i < (getPuzzlesByDifficulty store difficulty).length →
      ∃ r, getUnplayedPuzzleByDifficulty store (some u) difficulty guest
          .failure r
        = (getPuzzlesByDifficulty store difficulty).get? i) := by
  have hlen : (getPuzzlesByDifficulty store difficulty).length ≠ 0 :=
    fun h => hne (List.length_eq_zero.mp h)
  have hmain : ∀ r, getUnplayedPuzzleByDifficulty store (some u) difficulty
      guest .failure r
      = (getPuzzlesByDifficulty store difficulty).get?
          (r % (getPuzzlesByDifficulty store difficulty).length) := by
    intro r
    simp only [getUnplayedPuzzleByDifficulty, randomIndex]
    split
    · next h => exact absurd h hlen
    · rfl
  refine ⟨hmain rand, ?_, ?_⟩
  · have hidx : rand % (getPuzzlesByDifficulty store difficulty).length
        < (getPuzzlesByDifficulty store difficulty).length :=
      Nat.mod_lt _ (Nat.pos_of_ne_zero hlen)
    refine ⟨(getPuzzlesByDifficulty store difficulty).get ⟨_, hidx⟩, ?_, ?_⟩
    · rw [hmain rand]
      exact List.get?_eq_get hidx
    · exact List.get_mem _ _ _
  · intro i hi
    refine ⟨i, ?_⟩
    rw [hmain i, Nat.mod_eq_of_lt hi]

/-- C7 witness: with two easy puzzles and a failing ledger read, draw 3 lands
on index 1 of the full list. -/
theorem getUnplayed_ledger_failure_random_witness :
    getUnplayedPuzzleByDifficulty
        [⟨JsVal.str "a", Difficulty.easy⟩, ⟨JsVal.str "b", Difficulty.easy⟩]
        (some "u") Difficulty.easy none LedgerRead.failure 3
      = some ⟨JsVal.str "b", Difficulty.easy⟩ :=
  ((getUnplayed_ledger_failure_random
      [⟨JsVal.str "a", Difficulty.easy⟩, ⟨JsVal.str "b", Difficulty.easy⟩]
      Difficulty.easy "u" none 3 (by decide)).1).trans (by decide)

/-- Raw JavaScript-array cell access `grid[i][j]`: `none` models an
out-of-bounds access (a runtime failure or `undefined` in the source). -/
def getCell (g : List (List Color)) (i j : Nat) : Option Color :=
  match g.get? i with
  | none => none
  | some row => row.get? j

/-- A well-formed grid value: exactly 3 rows of exactly 3 cells, the typed
domain of the Overlay Engine. -/
def WFGrid (g : List (List Color)) : Prop :=
  g.length = 3 ∧ ∀ row ∈ g, row.length = 3

instance : DecidablePred WFGrid := fun g => by unfold WFGrid; infer_instance

/-- `canOverlay` at the raw-array level: the nested `0..2` loops,
accumulating the result; an out-of-bounds access aborts with `none`.  (On
in-bounds inputs the accumulated conjunction equals the source's
early-return loop.) -/
def canOverlayL (g1 g2 : List (List Color)) : Option Bool :=
  (List.range 3).foldlM (fun acc i =>
    (List.range 3).foldlM (fun acc2 j => do
      let c1 ← getCell g1 i j
      let c2 ← getCell g2 i j
      pure (acc2 && !(c1 != Color.X && c2 != Color.X))) acc) true

/-- The literal 3×3 all-`'X'` array `overlayGrids` initialises `result` to. -/
def emptyGridL : List (List Color) :=
  [[Color.X, Color.X, Color.X], [Color.X, Color.X, Color.X],
   [Color.X, Color.X, Color.X]]

/-- The assignment `result[i][j] = c` on the raw-array representation. -/
def setCell (g : List (List Color)) (i j : Nat) (c : Color) :
    List (List Color) :=
  g.set i ((g.getD i []).set j c)

/-- One iteration of `overlayGrids`' outer loop at the raw-array level:
copies every non-`X` cell of `grid` into the accumulator. -/
def overlayStep (acc grid : List (List Color)) :
    Option (List (List Color)) :=
  (List.range 3).foldlM (fun a i =>
    (List.range 3).foldlM (fun a2 j => do
      let c ← getCell grid i j
      pure (if c != Color.X then setCell a2 i j c else a2)) a) acc

/-- `overlayGrids` at the raw-array level. -/
def overlayGridsL (grids : List (List (List Color))) :
    Option (List (List Color)) :=
  grids.foldlM overlayStep emptyGridL

/-- `gridsEqual` at the raw-array level. -/
def gridsEqualL (g1 g2 : List (List Color)) : Option Bool :=
  (List.range 3).foldlM (fun acc i =>
    (List.range 3).foldlM (fun acc2 j => do
      let c1 ← getCell g1 i j
      let c2 ← getCell g2 i j
      pure (acc2 && (c1 == c2))) acc) true

/-- The pair double-loop of `validateSolution` at the raw-array level. -/
def allPairsOverlayL : List (List (List Color)) → Option Bool
  | [] => pure true
  | g :: rest => do
    let b1 ← rest.foldlM (fun acc h => do
      let c ← canOverlayL g h
      pure (acc && c)) true
    let b2 ← allPairsOverlayL rest
    pure (b1 && b2)

/-- `validateSolution` at the raw-array level: the length guard fires before
any array access. -/
def validateSolutionL (selectedGrids : List (List (List Color)))
    (target : List (List Color)) : Option Bool :=
  if selectedGrids.length != 3 then pure false
  else do
    let ok ← allPairsOverlayL selectedGrids
    if !ok then pure false
    else do
      let result ← overlayGridsL selectedGrids
      gridsEqualL result target

/-- A well-formed grid is a 3×3 nest of cell values. -/
lemma WFGrid_shape (g : List (List Color)) (h : WFGrid g) :
    ∃ c00 c01 c02 c10 c11 c12 c20 c21 c22,
      g = [[c00, c01, c02], [c10, c11, c12], [c20, c21, c22]] := by
  obtain ⟨r0, r1, r2, rfl⟩ := List.length_eq_three.mp h.1
  obtain ⟨a, b, c, h0⟩ := List.length_eq_three.mp (h.2 r0 (by simp))
  obtain ⟨d, e, f, h1⟩ := List.length_eq_three.mp (h.2 r1 (by simp))
  obtain ⟨p, q, r, h2⟩ := List.length_eq_three.mp (h.2 r2 (by simp))
  subst h0 h1 h2
  exact ⟨_, _, _, _, _, _, _, _, _, rfl⟩

/-- In-bounds cell access on a well-formed grid always succeeds. -/
lemma getCell_total (g : List (List Color)) (h : WFGrid g) (i j : Nat)
    (hi : i < 3) (hj : j < 3) : ∃ c, getCell g i j = some c := by
  obtain ⟨c00, c01, c02, c10, c11, c12, c20, c21, c22, rfl⟩ := WFGrid_shape g h
  interval_cases i <;> interval_cases j <;> exact ⟨_, rfl⟩

/-- `canOverlayL` never fails on well-formed grids. -/
lemma canOverlayL_total (g1 g2 : List (List Color))
    (h1 : WFGrid g1) (h2 : WFGrid g2) : ∃ b, canOverlayL g1 g2 = some b := by
  obtain ⟨a, b, c, d, e, f, p, q, r, rfl⟩ := WFGrid_shape g1 h1
  obtain ⟨a', b', c', d', e', f', p', q', r', rfl⟩ := WFGrid_shape g2 h2
  exact ⟨_, rfl⟩

/-- `gridsEqualL` never fails on well-formed grids. -/
lemma gridsEqualL_total (g1 g2 : List (List Color))
    (h1 : WFGrid g1) (h2 : WFGrid g2) : ∃ b, gridsEqualL g1 g2 = some b := by
  obtain ⟨a, b, c, d, e, f, p, q, r, rfl⟩ := WFGrid_shape g1 h1
  obtain ⟨a', b', c', d', e', f', p', q', r', rfl⟩ := WFGrid_shape g2 h2
  exact ⟨_, rfl⟩

/-- `result[i][j] = c` keeps a well-formed accumulator well-formed when the
row index is in bounds. -/
lemma WFGrid_setCell (g : List (List Color)) (h : WFGrid g) (i j : Nat)
    (c : Color) (hi : i < 3) : WFGrid (setCell g i j c) := by
  refine ⟨by simp [setCell, h.1], ?_⟩
  intro row hrow
  rcases List.mem_or_eq_of_mem_set hrow with h' | h'
  · exact h.2 row h'
  · subst h'
    rw [List.length_set]
    have hlt : i < g.length := by rw [h.1]; exact hi
    rw [List.getD_eq_getElem _ _ hlt]
    exact h.2 _ (List.getElem_mem hlt)

/-- The inner `for j` loop of `overlayGrids` succeeds on a well-formed source
row range and preserves well-formedness of the accumulator. -/
lemma overlay_inner_total (grid : List (List Color)) (hg : WFGrid grid)
    (i : Nat) (hi : i < 3) :
    ∀ (js : List Nat), (∀ j ∈ js, j < 3) → ∀ acc, WFGrid acc →
      ∃ res, (js.foldlM (fun a2 j => do
          let c ← getCell grid i j
          pure (if c != Color.X then setCell a2 i j c else a2)) acc)
        = some res ∧ WFGrid res := by
  intro js
  induction js with
  | nil => exact fun _ acc hacc => ⟨acc, rfl, hacc⟩
  | cons j js ih =>
    intro hjs acc hacc
    obtain ⟨c, hc⟩ :=
      getCell_total grid hg i j hi (hjs j (List.mem_cons_self _ _))
    have hwf' : WFGrid (if c != Color.X then setCell acc i j c else acc) := by
      split
      · exact WFGrid_setCell acc hacc i j c hi
      · exact hacc
    obtain ⟨res, hres, hreswf⟩ :=
      ih (fun x hx => hjs x (List.mem_cons_of_mem _ hx)) _ hwf'
    refine ⟨res, ?_, hreswf⟩
    rw [List.foldlM_cons, hc]
    exact hres

/-- One outer-loop pass of `overlayGrids` succeeds on a well-formed input
grid and preserves well-formedness of the accumulator. -/
lemma overlayStep_total (acc grid : List (List Color)) (hacc : WFGrid acc)
    (hg : WFGrid grid) :
    ∃ res, overlayStep acc grid = some res ∧ WFGrid res := by
  have key : ∀ (is : List Nat), (∀ i ∈ is, i < 3) → ∀ a, WFGrid a →
      ∃ res, (is.foldlM (fun a i =>
          (List.range 3).foldlM (fun a2 j => do
            let c ← getCell grid i j
            pure (if c != Color.X then setCell a2 i j c else a2)) a) a)
        = some res ∧ WFGrid res := by
    intro is
    induction is with
    | nil => exact fun _ a ha => ⟨a, rfl, ha⟩
    | cons i is ih =>
      intro his a ha
      obtain ⟨mid, hmid, hmidwf⟩ :=
        overlay_inner_total grid hg i (his i (List.mem_cons_self _ _))
          (List.range 3) (fun x hx => List.mem_range.mp hx) a ha
      obtain ⟨res, hres, hreswf⟩ :=
        ih (fun x hx => his x (List.mem_cons_of_mem _ hx)) mid hmidwf
      refine ⟨res, ?_, hreswf⟩
      rw [List.foldlM_cons, hmid]
      exact hres
  exact key (List.range 3) (fun x hx => List.mem_range.mp hx) acc hacc

/-- `overlayGridsL` never fails on a list of well-formed grids and returns a
well-formed grid. -/
lemma overlayGridsL_total (grids : List (List (List Color)))
    (h : ∀ g ∈ grids, WFGrid g) :
    ∃ res, overlayGridsL grids = some res ∧ WFGrid res := by
  have hempty : WFGrid emptyGridL := by decide
  have key : ∀ (gs : List (List (List Color))), (∀ g ∈ gs, WFGrid g) →
      ∀ acc, WFGrid acc →
      ∃ res, gs.foldlM overlayStep acc = some res ∧ WFGrid res := by
    intro gs
    induction gs with
    | nil => exact fun _ acc hacc => ⟨acc, rfl, hacc⟩
    | cons g gs ih =>
      intro hgs acc hacc
      obtain ⟨mid, hmid, hmidwf⟩ :=
        overlayStep_total acc g hacc (hgs g (List.mem_cons_self _ _))
      obtain ⟨res, hres, hreswf⟩ :=
        ih (fun x hx => hgs x (List.mem_cons_of_mem _ hx)) mid hmidwf
      refine ⟨res, ?_, hreswf⟩
      rw [List.foldlM_cons, hmid]
      exact hres
  exact key grids h emptyGridL hempty

/-- The pair double-loop of `validateSolution` never fails on well-formed
grids. -/
lemma allPairsOverlayL_total (grids : List (List (List Color)))
    (h : ∀ g ∈ grids, WFGrid g) : ∃ b, allPairsOverlayL grids = some b := by
  induction grids with
  | nil => exact ⟨true, rfl⟩
  | cons g gs ih =>
    have hrow : ∀ (rest : List (List (List Color))),
        (∀ x ∈ rest, WFGrid x) → ∀ acc : Bool,
        ∃ b, (rest.foldlM (fun acc h => do
            let c ← canOverlayL g h
            pure (acc && c)) acc) = some b := by
      intro rest
      induction rest with
      | nil => exact fun _ acc => ⟨acc, rfl⟩
      | cons x xs ihx =>
        intro hxs acc
        obtain ⟨c, hc⟩ := canOverlayL_total g x
          (h g (List.mem_cons_self _ _)) (hxs x (List.mem_cons_self _ _))
        obtain ⟨b, hb⟩ :=
          ihx (fun y hy => hxs y (List.mem_cons_of_mem _ hy)) (acc && c)
        refine ⟨b, ?_⟩
        rw [List.foldlM_cons, hc]
        exact hb
    obtain ⟨b1, hb1⟩ :=
      hrow gs (fun x hx => h x (List.mem_cons_of_mem _ hx)) true
    obtain ⟨b2, hb2⟩ := ih (fun x hx => h x (List.mem_cons_of_mem _ hx))
    refine ⟨b1 && b2, ?_⟩
    unfold allPairsOverlayL
    rw [hb1]
    simp [hb2]

/-- `validateSolutionL` never fails on well-formed inputs. -/
lemma validateSolutionL_total (grids : List (List (List Color)))
    (target : List (List Color)) (h : ∀ g ∈ grids, WFGrid g)
    (ht : WFGrid target) : ∃ b, validateSolutionL grids target = some b := by
  unfold validateSolutionL
  split
  · exact ⟨false, rfl⟩
  · obtain ⟨ok, hok⟩ := allPairsOverlayL_total grids h
    obtain ⟨res, hres, hreswf⟩ := overlayGridsL_total grids h
    obtain ⟨b, hb⟩ := gridsEqualL_total res target hreswf ht
    cases ok
    · exact ⟨false, by simp [hok]⟩
    · exact ⟨b, by simp [hok, hres, hb]⟩

/-- C9: every Overlay Engine function is total over well-formed inputs: on
3×3 grids (and finite lists of such grids) `canOverlayL`, `gridsEqualL`,
`overlayGridsL` and `validateSolutionL` always return a value — no
out-of-bounds access or other failure occurs — and `overlayGridsL` returns
a well-formed grid. -/
theorem overlayEngine_total :
    (∀ g1 g2, WFGrid g1 → WFGrid g2 → ∃ b, canOverlayL g1 g2 = some b) ∧
    (∀ g1 g2, WFGrid g1 → WFGrid g2 → ∃ b, gridsEqualL g1 g2 = some b) ∧
    (∀ grids, (∀ g ∈ grids, WFGrid g) →
      ∃ res, overlayGridsL grids = some res ∧ WFGrid res) ∧
    (∀ grids target, (∀ g ∈ grids, WFGrid g) → WFGrid target →
      ∃ b, validateSolutionL grids target = some b) :=
  ⟨canOverlayL_total, gridsEqualL_total,
    overlayGridsL_total, validateSolutionL_total⟩

/-- C9 witness: the raw-array engine evaluated on two concrete well-formed
grids. -/
theorem overlayEngine_total_witness :
    (∃ b, canOverlayL
      [[Color.R, Color.X, Color.X], [Color.R, Color.X, Color.X],
       [Color.X, Color.X, Color.X]]
      [[Color.X, Color.B, Color.X], [Color.X, Color.B, Color.X],
       [Color.X, Color.X, Color.X]] = some b) ∧
    (∃ b, validateSolutionL
      [[[Color.R, Color.X, Color.X], [Color.R, Color.X, Color.X],
        [Color.X, Color.X, Color.X]]]
      [[Color.R, Color.X, Color.X], [Color.R, Color.X, Color.X],
       [Color.X, Color.X, Color.X]] = some b) := by
  constructor
  · exact overlayEngine_total.1 _ _ (by decide) (by decide)
  · exact overlayEngine_total.2.2.2 _ _
      (by intro g hg; simp at hg; subst hg; decide) (by decide)
